import Mathlib

/-
Verification of the factor computation engine of the personal-investor-assistant
repository: a shallow embedding of src/utils_stats.py and src/compute_factors.py.

Numeric cells are modelled as `Option ℚ` (respectively `Option ℝ` for the
standardization stages, whose z-scores involve square roots): `none` stands for
pandas NaN / an undefined value, and the embedding mirrors pandas semantics:
arithmetic propagates `none`, comparisons against `none` are `false`, `fillna`
replaces `none` by a default.
-/

/-- Pandas cell addition: NaN-propagating addition on optional values. -/
def optAdd {α : Type} [Add α] : Option α → Option α → Option α
  | some x, some y => some (x + y)
  | _, _ => none

/-- Pandas cell subtraction: NaN-propagating subtraction on optional values. -/
def optSub {α : Type} [Sub α] : Option α → Option α → Option α
  | some x, some y => some (x - y)
  | _, _ => none

/-- Pandas cell multiplication: NaN-propagating multiplication on optional values. -/
def optMul {α : Type} [Mul α] : Option α → Option α → Option α
  | some x, some y => some (x * y)
  | _, _ => none

/-- Division after `denominator.replace(\x7b0: np.nan\x7d)`: the result is `none` when
either operand is missing or the denominator is zero, mirroring the guarded
divisions in utils_stats.py and compute_factors.py. -/
def divNZ {α : Type} [Div α] [Zero α] [DecidableEq α] : Option α → Option α → Option α
  | some x, some y => if y = 0 then none else some (x / y)
  | _, _ => none

/-- Pandas comparison `a > b`: false whenever an operand is NaN. -/
def cmpGt {α : Type} [LinearOrder α] : Option α → Option α → Bool
  | some x, some y => decide (y < x)
  | _, _ => false

/-- Pandas comparison `a < b`: false whenever an operand is NaN. -/
def cmpLt {α : Type} [LinearOrder α] : Option α → Option α → Bool
  | some x, some y => decide (x < y)
  | _, _ => false

/-- Pandas comparison `a <= b`: false whenever an operand is NaN. -/
def cmpLe {α : Type} [LinearOrder α] : Option α → Option α → Bool
  | some x, some y => decide (x ≤ y)
  | _, _ => false

/-- Embeds utils_stats.pct_change_n: the percent change of a series over its
last n observations. Undefined (none) when the series is shorter than n+1
observations or the base observation (n positions before the last) is zero. -/
def pct_change_n (prices : List ℚ) (n : ℕ) : Option ℚ :=
  if prices.length < n + 1 then none
  else if prices.getD (prices.length - (n + 1)) 0 = 0 then none
  else some (prices.getLast?.getD 0 / prices.getD (prices.length - (n + 1)) 0 - 1)

/-- The 6-month momentum column of compute_factors.compute:
pct_change_n over 126 trading days on the adjusted-close series. -/
def mom6m (adj : List ℚ) : Option ℚ := pct_change_n adj 126

/-- The 12-month momentum column of compute_factors.compute:
pct_change_n over 252 trading days on the adjusted-close series. -/
def mom12m (adj : List ℚ) : Option ℚ := pct_change_n adj 252

/-- Embeds utils_stats.calc_fcf_yield on one row: FCF divided by
(price times shares), with a zero or missing denominator giving none. -/
def calc_fcf_yield (fcf price shares : Option ℚ) : Option ℚ :=
  divNZ fcf (optMul price shares)

/-- Embeds utils_stats.calc_ev_to_ebitda on one row: enterprise value
(price times shares plus debt fillna 0 minus cash fillna 0) divided by EBITDA,
with a zero or missing denominator giving none. -/
def calc_ev_to_ebitda (price shares debt cash ebitda : Option ℚ) : Option ℚ :=
  divNZ (optSub (optAdd (optMul price shares) (some (debt.getD 0))) (some (cash.getD 0))) ebitda

/-- Embeds utils_stats.calc_roic on one row: NOPAT (net income fillna 0 plus
interest expense fillna 0) over invested capital (total assets minus current
liabilities minus cash plus debt, each fillna 0), zero capital giving none. -/
def calc_roic (ni ie ta cl cash debt : Option ℚ) : Option ℚ :=
  let invested := ta.getD 0 - cl.getD 0 - cash.getD 0 + debt.getD 0
  if invested = 0 then none else some ((ni.getD 0 + ie.getD 0) / invested)

/-- The factor-weight configuration read from config.yml: each key may be
absent, in which case compute_factors.compute substitutes its default. -/
structure WeightsCfg where
  value : Option ℚ
  quality : Option ℚ
  momentum : Option ℚ

/-- The default weight triple 0.4 / 0.4 / 0.2 of compute_factors.compute. -/
def defaultWeights : ℚ × ℚ × ℚ := (2 / 5, 2 / 5, 1 / 5)

/-- The configured weights with per-key defaults, before renormalization
(compute_factors.compute, weights dict construction). -/
def rawWeights (cfg : WeightsCfg) : ℚ × ℚ × ℚ :=
  (cfg.value.getD (2 / 5), cfg.quality.getD (2 / 5), cfg.momentum.getD (1 / 5))

/-- The weights actually applied to the composite: the configured weights
divided by their total when the total is positive, and the default triple
when the total is at most zero (compute_factors.compute). -/
def normWeights (cfg : WeightsCfg) : ℚ × ℚ × ℚ :=
  let w := rawWeights cfg
  let t := w.1 + w.2.1 + w.2.2
  if t ≤ 0 then defaultWeights
  else (w.1 / t, w.2.1 / t, w.2.2 / t)

/-- One cell of the Composite column: the weighted sum of the three sub-scores,
propagating a missing sub-score to a missing composite as pandas does. -/
noncomputable def compositeCell (w : ℚ × ℚ × ℚ) (v q m : Option ℝ) : Option ℝ :=
  optAdd (optAdd (optMul (some ((w.1 : ℝ))) v) (optMul (some ((w.2.1 : ℝ))) q))
    (optMul (some ((w.2.2 : ℝ))) m)

/-- The average-method percentile rank of one value among the defined values of
a column: (count strictly below + (count equal + 1) / 2) / (count defined).
This is pandas Series.rank(pct=True) with its default average tie method. -/
def rankPctVal {α : Type} [LinearOrderedField α] (valid : List α) (x : α) : α :=
  (((valid.filter (fun y => decide (y < x))).length : α) +
      (((valid.filter (fun y => decide (y = x))).length : α) + 1) / 2) /
    (valid.length : α)

/-- Embeds the CompositePctile column `latest["Composite"].rank(pct=True)`:
defined entries get their average-method percentile rank among the defined
entries, missing entries stay missing. -/
def rankPct {α : Type} [LinearOrderedField α] (xs : List (Option α)) : List (Option α) :=
  xs.map (Option.map (rankPctVal (xs.filterMap id)))

/-- One raw quarterly fundamentals record for a ticker (one row of the
fundamentals_quarterly table), GAAP quantities as optional cells. -/
structure FRow where
  ticker : String
  fiscal_end : ℤ
  Revenue : Option ℚ
  NetIncome : Option ℚ
  SharesDiluted : Option ℚ
  OperatingCF : Option ℚ
  CapitalExpenditures : Option ℚ
  TotalAssets : Option ℚ
  TotalLiabilities : Option ℚ
  CashAndEquivalents : Option ℚ
  Debt : Option ℚ
  GrossProfit : Option ℚ
  CurrentAssets : Option ℚ
  CurrentLiabilities : Option ℚ
  EBITDA : Option ℚ
  InterestExpense : Option ℚ
  filed : ℤ
  cik : String
  sic : String
  entity_name : String
deriving Inhabited

/-- One row of the TTM rollup produced by compute_factors._build_ttm_rollup. -/
structure TTMRow where
  fiscal_end : ℤ
  RevenueTTM : Option ℚ
  NetIncomeTTM : Option ℚ
  OpCFTTM : Option ℚ
  CapexTTM : Option ℚ
  GrossProfitTTM : Option ℚ
  EBITDATTM : Option ℚ
  InterestExpenseTTM : Option ℚ
  SharesDilutedTTM : Option ℚ
  Debt : Option ℚ
  CashAndEquivalents : Option ℚ
  TotalAssets : Option ℚ
  TotalLiabilities : Option ℚ
  CurrentAssets : Option ℚ
  CurrentLiabilities : Option ℚ
  filed : ℤ
  sic : String
  cik : String
  entity_name : String
  ticker : String
  FCFTTM : Option ℚ
deriving Inhabited

/-- Pandas rolling(4, min_periods=1).sum() at one output position: the sum of
the defined values among the current record and up to three previous records;
none when the whole window is undefined. `prev` is the list of already
processed records, most recent first. -/
def rollWinSum (f : FRow → Option ℚ) (prev : List FRow) (cur : FRow) : Option ℚ :=
  let vals := (cur :: prev.take 3).filterMap f
  if vals.isEmpty then none else some vals.sum

/-- Pandas rolling(4, min_periods=1).mean() at one output position, used for
the diluted share count. -/
def rollWinMean (f : FRow → Option ℚ) (prev : List FRow) (cur : FRow) : Option ℚ :=
  let vals := (cur :: prev.take 3).filterMap f
  if vals.isEmpty then none else some (vals.sum / (vals.length : ℚ))

/-- One output row of _build_ttm_rollup: trailing-window sums for the seven
flow quantities, the trailing-window mean for diluted shares, passthrough of
the balance-sheet and metadata columns, and FCFTTM = OpCFTTM - CapexTTM with
a missing capex treated as zero. -/
def mkTTMRow (prev : List FRow) (g : FRow) : TTMRow :=
  let opcf := rollWinSum (fun r => r.OperatingCF) prev g
  let capex := rollWinSum (fun r => r.CapitalExpenditures) prev g
  { fiscal_end := g.fiscal_end
    RevenueTTM := rollWinSum (fun r => r.Revenue) prev g
    NetIncomeTTM := rollWinSum (fun r => r.NetIncome) prev g
    OpCFTTM := opcf
    CapexTTM := capex
    GrossProfitTTM := rollWinSum (fun r => r.GrossProfit) prev g
    EBITDATTM := rollWinSum (fun r => r.EBITDA) prev g
    InterestExpenseTTM := rollWinSum (fun r => r.InterestExpense) prev g
    SharesDilutedTTM := rollWinMean (fun r => r.SharesDiluted) prev g
    Debt := g.Debt
    CashAndEquivalents := g.CashAndEquivalents
    TotalAssets := g.TotalAssets
    TotalLiabilities := g.TotalLiabilities
    CurrentAssets := g.CurrentAssets
    CurrentLiabilities := g.CurrentLiabilities
    filed := g.filed
    sic := g.sic
    cik := g.cik
    entity_name := g.entity_name
    ticker := g.ticker
    FCFTTM := optSub opcf (some (capex.getD 0)) }

/-- Walks the sorted group front to back, carrying the already processed
records (most recent first) as the rolling window context. -/
def ttmAux : List FRow → List FRow → List TTMRow
  | _, [] => []
  | prev, g :: rest => mkTTMRow prev g :: ttmAux (g :: prev) rest

/-- Embeds compute_factors._build_ttm_rollup: sort a single ticker's quarterly
records chronologically, then emit one TTM rollup row per input period. -/
def build_ttm_rollup (group : List FRow) : List TTMRow :=
  ttmAux [] (List.insertionSort (fun a b => a.fiscal_end ≤ b.fiscal_end) group)

/-- Return on assets of one rollup row, with the guarded denominator of
utils_stats.piotroski_f_score. -/
def roaOf (r : TTMRow) : Option ℚ := divNZ r.NetIncomeTTM r.TotalAssets

/-- Leverage (debt over total assets) of one rollup row, guarded denominator. -/
def leverageOf (r : TTMRow) : Option ℚ := divNZ r.Debt r.TotalAssets

/-- Current ratio (current assets over current liabilities) of one rollup row,
guarded denominator. -/
def liquidityOf (r : TTMRow) : Option ℚ := divNZ r.CurrentAssets r.CurrentLiabilities

/-- Gross margin (gross profit over revenue) of one rollup row, guarded
denominator. -/
def marginOf (r : TTMRow) : Option ℚ := divNZ r.GrossProfitTTM r.RevenueTTM

/-- Asset turnover (revenue over total assets) of one rollup row, guarded
denominator. -/
def turnoverOf (r : TTMRow) : Option ℚ := divNZ r.RevenueTTM r.TotalAssets

/-- The shifted (prior-period) value of a derived column: none at the first
row, where pandas shift(1) yields NaN. -/
def prevMap (f : TTMRow → Option ℚ) : Option TTMRow → Option ℚ
  | some p => f p
  | none => none

/-- The nine binary Piotroski criteria of utils_stats.piotroski_f_score for one
row, given the prior row (none at the first row): each comparison involving a
missing value or a missing prior period contributes 0. -/
def scoreRow (prev : Option TTMRow) (r : TTMRow) : ℕ :=
  (if cmpGt (roaOf r) (some 0) then 1 else 0) +
  (if cmpGt r.OpCFTTM (some 0) then 1 else 0) +
  (if cmpGt (roaOf r) (prevMap roaOf prev) then 1 else 0) +
  (if cmpGt (optSub r.OpCFTTM r.NetIncomeTTM) (some 0) then 1 else 0) +
  (if cmpLt (leverageOf r) (prevMap leverageOf prev) then 1 else 0) +
  (if cmpGt (liquidityOf r) (prevMap liquidityOf prev) then 1 else 0) +
  (if cmpGt (marginOf r) (prevMap marginOf prev) then 1 else 0) +
  (if cmpGt (turnoverOf r) (prevMap turnoverOf prev) then 1 else 0) +
  (if cmpLe r.SharesDilutedTTM (prevMap (fun p => p.SharesDilutedTTM) prev) then 1 else 0)

/-- Scores a chronologically sorted sequence row by row, carrying the previous
row as the shift(1) context. -/
def scoreAux : Option TTMRow → List TTMRow → List ℕ
  | _, [] => []
  | prev, r :: rest => scoreRow prev r :: scoreAux (some r) rest

/-- Embeds utils_stats.piotroski_f_score: sort by fiscal_end, then score each
row against its immediate predecessor; the result is one integer per row. -/
def piotroski_f_score (rows : List TTMRow) : List ℕ :=
  scoreAux none (List.insertionSort (fun a b => a.fiscal_end ≤ b.fiscal_end) rows)

/-- A TTM rollup row with only the Piotroski-relevant columns populated, used
for concrete test inputs. -/
def mkPioRow (fe : ℤ) (ni opcf ta debt ca cl gp rev sh : ℚ) : TTMRow :=
  { fiscal_end := fe
    RevenueTTM := some rev
    NetIncomeTTM := some ni
    OpCFTTM := some opcf
    CapexTTM := none
    GrossProfitTTM := some gp
    EBITDATTM := none
    InterestExpenseTTM := none
    SharesDilutedTTM := some sh
    Debt := some debt
    CashAndEquivalents := none
    TotalAssets := some ta
    TotalLiabilities := none
    CurrentAssets := some ca
    CurrentLiabilities := some cl
    filed := 0
    sic := ""
    cik := ""
    entity_name := ""
    ticker := "T"
    FCFTTM := none }

/-- The three-period fixture of tests/test_piotroski.py
(fiscal ends 2022-12-31, 2023-03-31, 2023-06-30 in order). -/
def pioRow1 : TTMRow := mkPioRow 0 40 42 200 80 60 40 120 300 50

/-- Second period of the Piotroski fixture. -/
def pioRow2 : TTMRow := mkPioRow 1 45 48 205 78 65 39 126 310 49

/-- Third period of the Piotroski fixture. -/
def pioRow3 : TTMRow := mkPioRow 2 52 55 210 75 72 38 135 325 48

/-- The Piotroski fixture sequence, chronologically ordered. -/
def pioFixture : List TTMRow := [pioRow1, pioRow2, pioRow3]

/-- Pandas Series.mean(skipna=True): the mean of the defined values, none when
no value is defined. -/
noncomputable def meanOpt (xs : List (Option ℝ)) : Option ℝ :=
  let v := xs.filterMap id
  if v.length = 0 then none else some (v.sum / (v.length : ℝ))

/-- The population variance (ddof=0) of the defined values of a column, none
when no value is defined. -/
noncomputable def varPopOpt (xs : List (Option ℝ)) : Option ℝ :=
  match meanOpt xs with
  | none => none
  | some m =>
    let v := xs.filterMap id
    some (((v.map fun x => (x - m) ^ 2).sum) / (v.length : ℝ))

/-- Pandas Series.std(ddof=0): the population standard deviation of the defined
values, none when no value is defined. -/
noncomputable def stdPopOpt (xs : List (Option ℝ)) : Option ℝ :=
  (varPopOpt xs).map Real.sqrt

/-- Embeds utils_stats.zscore: when the column's standard deviation is zero or
undefined the whole column becomes zero, otherwise each defined cell is
standardized by the column mean and population standard deviation. -/
noncomputable def zscore (xs : List (Option ℝ)) : List (Option ℝ) :=
  match stdPopOpt xs with
  | none => xs.map fun _ => some 0
  | some s =>
    if s = 0 then xs.map fun _ => some 0
    else xs.map (Option.map fun x => (x - (meanOpt xs).getD 0) / s)

/-- Pandas x.fillna(x.mean(skipna=True)): missing cells are imputed with the
column mean; an all-missing column is left unchanged. -/
noncomputable def fillnaMean (xs : List (Option ℝ)) : List (Option ℝ) :=
  match meanOpt xs with
  | none => xs
  | some m => xs.map fun o => some (o.getD m)

/-- Pandas Series.quantile with its default linear interpolation, on the list
of defined values: sort, take the value at fractional position q * (n - 1),
interpolating between the two neighbouring order statistics. -/
noncomputable def quantileLin (vals : List ℝ) (q : ℝ) : Option ℝ :=
  if vals.isEmpty then none
  else
    let s := List.insertionSort (fun a b : ℝ => a ≤ b) vals
    let n := s.length
    let pos := q * ((n : ℝ) - 1)
    let i := Nat.floor pos
    if i + 1 < n then some (s.getD i 0 + (pos - (i : ℝ)) * (s.getD (i + 1) 0 - s.getD i 0))
    else some (s.getD (n - 1) 0)

/-- Embeds utils_stats.winsorize: clip every defined cell to the lower/upper
quantiles of the column's defined values; an empty column is returned as is,
and a missing quantile (no defined values) leaves that side unclipped, as
pandas clip ignores NaN bounds. -/
noncomputable def winsorize (series : List (Option ℝ)) (lower upper : ℝ) : List (Option ℝ) :=
  if series.isEmpty then series
  else
    let lo := quantileLin (series.filterMap id) lower
    let hi := quantileLin (series.filterMap id) upper
    series.map (Option.map fun x =>
      let x1 := match lo with | some l => max l x | none => x
      match hi with | some h => min h x1 | none => x1)

/-- Embeds utils_stats.industry_zscores: group the value column by industry
label and transform each group by filling missing entries with the group mean
and z-scoring with the group's own mean and population standard deviation.
The output is positional: entry i is the transformed value of entry i. -/
noncomputable def industry_zscores (values : List (Option ℝ)) (industries : List String) :
    List (Option ℝ) :=
  (List.range values.length).map fun i =>
    let key := industries.getD i ""
    let idxs := (List.range values.length).filter fun j => decide (industries.getD j "" = key)
    let zs := zscore (fillnaMean (idxs.map fun j => values.getD j none))
    zs.getD (idxs.indexOf i) none

/-- Modelled from the spec: section 4.3 describes the industry-relative
standardization as a group-wise winsorize followed by a z-score after imputing
the group mean for missing entries. This definition follows the spec's words
(the source's industry_zscores applies no winsorize inside the group) and
exists only to be compared against the embedding of the source. -/
noncomputable def industryZscoresSpecWinsor (values : List (Option ℝ)) (industries : List String) :
    List (Option ℝ) :=
  (List.range values.length).map fun i =>
    let key := industries.getD i ""
    let idxs := (List.range values.length).filter fun j => decide (industries.getD j "" = key)
    let zs := zscore (winsorize (fillnaMean (idxs.map fun j => values.getD j none))
      (1 / 100) (99 / 100))
    zs.getD (idxs.indexOf i) none

/-- The value column of the industry-standardization counterexample input. -/
noncomputable def c4vals : List (Option ℝ) := [some 0, some 1, some 2, some 3]

/-- The industry column of the counterexample input: one four-member group. -/
def c4inds : List String := ["Tech", "Tech", "Tech", "Tech"]

/-- One row of the prices_daily table as used by compute_factors.compute
(only ticker, date and adjusted close are read by the engine). -/
structure PriceRow where
  ticker : String
  date : ℤ
  adj_close : ℚ
deriving Inhabited

/-- Lexicographic order on price rows for prices.sort_values(["ticker", "date"]). -/
def priceLexLe (a b : PriceRow) : Bool :=
  match compare a.ticker b.ticker with
  | Ordering.lt => true
  | Ordering.eq => decide (a.date ≤ b.date)
  | Ordering.gt => false

/-- Lexicographic order on fundamentals rows for
fnds.sort_values(["ticker", "fiscal_end"]). -/
def fndLexLe (a b : FRow) : Bool :=
  match compare a.ticker b.ticker with
  | Ordering.lt => true
  | Ordering.eq => decide (a.fiscal_end ≤ b.fiscal_end)
  | Ordering.gt => false

/-- Modelled from the spec: the repository's industry_map module (the static
SIC-code-to-industry-label table with its default bucket) is not among the
provided source files; section 4.3 specifies the lookup discipline (exact code,
then 3-digit prefix, then 2-digit prefix, then the default bucket). The table
contents here are a representative sample; no claim depends on them. -/
def SIC_TO_INDUSTRY : List (String × String) :=
  [("3674", "Tech"), ("367", "Tech"), ("36", "Tech"), ("49", "Utilities"), ("60", "Financials")]

/-- Modelled from the spec: the default industry bucket of the industry map. -/
def INDUSTRY_DEFAULT : String := "Unclassified"

/-- Exact lookup in the SIC table. -/
def lookupSIC (code : String) : Option String := SIC_TO_INDUSTRY.lookup code

/-- Embeds compute_factors._map_industry: empty code maps to the default
bucket, otherwise try the exact code, its 3-digit form and its 2-digit form
before falling back to the default bucket. -/
def map_industry (sic : String) : String :=
  let code := sic.trim
  if code = "" then INDUSTRY_DEFAULT
  else
    match lookupSIC code with
    | some v => v
    | none =>
      match (if 3 ≤ code.length then lookupSIC (code.take 3) else none) with
      | some v => v
      | none =>
        match (if 2 ≤ code.length then lookupSIC (code.take 2) else none) with
        | some v => v
        | none => INDUSTRY_DEFAULT

/-- The adjusted-close history of one ticker from the sorted price table. -/
def adjSeries (sortedPrices : List PriceRow) (t : String) : List ℚ :=
  (sortedPrices.filter fun p => p.ticker == t).map PriceRow.adj_close

/-- The latest available adjusted close of one ticker: the merge against
prices.groupby("ticker").tail(1), none for a ticker with no price rows. -/
def lastAdjClose (sortedPrices : List PriceRow) (t : String) : Option ℚ :=
  ((sortedPrices.filter fun p => p.ticker == t).getLast?).map PriceRow.adj_close

/-- Daily returns tail: each entry divided by its predecessor minus one, the
predecessor being the carried value; a zero predecessor is undefined. -/
def retAux : ℚ → List ℚ → List (Option ℚ)
  | _, [] => []
  | prev, x :: xs => (if prev = 0 then none else some (x / prev - 1)) :: retAux x xs

/-- Pandas groupby("ticker")["adj_close"].pct_change() for one ticker: the
first observation has no predecessor and is undefined. -/
def retSeries : List ℚ → List (Option ℚ)
  | [] => []
  | a :: rest => none :: retAux a rest

/-- The population standard deviation of a list of reals (ddof=0). -/
noncomputable def stdVals (v : List ℝ) : ℝ :=
  Real.sqrt (((v.map fun x => (x - v.sum / (v.length : ℝ)) ^ 2).sum) / (v.length : ℝ))

/-- Embeds the vol_30 closure of compute_factors.compute: the annualized
population standard deviation of the last thirty defined daily returns,
undefined with fewer than twenty of them. -/
noncomputable def vol_30 (rets : List (Option ℚ)) : Option ℝ :=
  let valid := rets.filterMap id
  let tail := valid.drop (valid.length - 30)
  if tail.length < 20 then none
  else some (stdVals (tail.map fun q => (q : ℝ)) * Real.sqrt 252)

/-- Embeds the sharpe_1y closure of compute_factors.compute: the annualized
mean over standard deviation of the last 252 defined daily returns, undefined
with fewer than 200 of them or with a zero standard deviation. -/
noncomputable def sharpe_1y (rets : List (Option ℚ)) : Option ℝ :=
  let valid := rets.filterMap id
  let tail := valid.drop (valid.length - 252)
  if tail.length < 200 then none
  else
    let v := tail.map fun q => (q : ℝ)
    let sd := stdVals v
    if sd = 0 then none else some (Real.sqrt 252 * (v.sum / (v.length : ℝ)) / sd)

/-- Pandas Series.where(series > 0): keep a defined positive value, otherwise
the cell becomes missing. -/
def whereGt0 (o : Option ℚ) : Option ℚ :=
  match o with
  | some x => if 0 < x then some x else none
  | none => none

/-- np.log of an optional rational cell, as a real. -/
noncomputable def logOptR (o : Option ℚ) : Option ℝ := o.map fun q => Real.log (q : ℝ)

/-- An optional rational cell coerced to an optional real cell. -/
noncomputable def qToR (o : Option ℚ) : Option ℝ := o.map fun q => (q : ℝ)

/-- One ticker's row of the latest table of compute_factors.compute after the
per-ticker (pre-cross-sectional) columns have been derived. -/
structure BaseRow where
  row : TTMRow
  pf : ℕ
  Price : Option ℚ
  EPS_TTM : Option ℚ
  PE_TTM : Option ℚ
  FCFYield_TTM : Option ℚ
  EVToEBITDA : Option ℚ
  ROIC : Option ℚ
  Leverage : Option ℚ
  Qual_ROA : Option ℚ
  Mom6m : Option ℚ
  Mom12m : Option ℚ
  Volatility30d : Option ℝ
  Sharpe1y : Option ℝ
  industry : String
deriving Inhabited

/-- Derives the per-ticker columns of the latest table: latest price merge,
guarded ratios, momentum, risk statistics and the industry label. -/
noncomputable def mkBaseRow (sortedPrices : List PriceRow) (rs : TTMRow × ℕ) : BaseRow :=
  let r := rs.1
  let price := lastAdjClose sortedPrices r.ticker
  let eps := divNZ r.NetIncomeTTM r.SharesDilutedTTM
  let adj := adjSeries sortedPrices r.ticker
  let rets := retSeries adj
  { row := r
    pf := rs.2
    Price := price
    EPS_TTM := eps
    PE_TTM := divNZ price eps
    FCFYield_TTM := calc_fcf_yield r.FCFTTM price r.SharesDilutedTTM
    EVToEBITDA := calc_ev_to_ebitda price r.SharesDilutedTTM r.Debt r.CashAndEquivalents
      r.EBITDATTM
    ROIC := calc_roic r.NetIncomeTTM r.InterestExpenseTTM r.TotalAssets r.CurrentLiabilities
      r.CashAndEquivalents r.Debt
    Leverage := divNZ (some (r.Debt.getD 0 - r.CashAndEquivalents.getD 0)) r.TotalAssets
    Qual_ROA := divNZ r.NetIncomeTTM r.TotalAssets
    Mom6m := mom6m adj
    Mom12m := mom12m adj
    Volatility30d := vol_30 rets
    Sharpe1y := sharpe_1y rets
    industry := map_industry r.sic }

/-- One row of the scored output table (the columns selected at the end of
compute_factors.compute). -/
structure OutRow where
  ticker : String
  Price : Option ℚ
  PE_TTM : Option ℚ
  FCFYield_TTM : Option ℚ
  EVToEBITDA : Option ℚ
  ROIC : Option ℚ
  Leverage : Option ℚ
  Qual_ROA : Option ℚ
  PiotroskiF : ℕ
  Mom6m : Option ℚ
  Mom12m : Option ℚ
  Volatility30d : Option ℝ
  Sharpe1y : Option ℝ
  ValueScore : Option ℝ
  QualityScore : Option ℝ
  MomScore : Option ℝ
  Composite : Option ℝ
  CompositePctile : Option ℝ
  ValueZ : Option ℝ
  QualityZ : Option ℝ
  industry : String
  sic : String
  filed : ℤ
  cik : String
  entity_name : String
deriving Inhabited

/-- The final sort key: Composite descending with missing composites last
(pandas sort_values(ascending=False) keeps NaN at the end). -/
noncomputable def outLeByCompositeDesc (a b : OutRow) : Bool :=
  match a.Composite, b.Composite with
  | some x, some y => decide (y ≤ x)
  | some _, none => true
  | none, some _ => false
  | none, none => true

/-- The cross-sectional stages of compute_factors.compute: global winsorize
plus z-score passes for the value, quality and momentum components, row-wise
means of the available components, industry-relative standardization of the
value and quality raw scores, the weighted composite, its percentile rank and
the final descending sort. -/
noncomputable def computeScored (cfg : WeightsCfg) (base : List BaseRow) : List OutRow :=
  let n := base.length
  let valuePE := (zscore (winsorize (base.map fun b => logOptR (whereGt0 b.PE_TTM))
    (1 / 100) (99 / 100))).map (Option.map Neg.neg)
  let valueFCF := zscore (winsorize (base.map fun b => qToR b.FCFYield_TTM) (1 / 100) (99 / 100))
  let valueEV := (zscore (winsorize (base.map fun b => logOptR (whereGt0 b.EVToEBITDA))
    (1 / 100) (99 / 100))).map (Option.map Neg.neg)
  let valueRaw := (List.range n).map fun i =>
    meanOpt [valuePE.getD i none, valueFCF.getD i none, valueEV.getD i none]
  let qROIC := zscore (winsorize (base.map fun b => qToR b.ROIC) (1 / 100) (99 / 100))
  let qPio := zscore (winsorize (base.map fun b => some ((b.pf : ℝ))) (1 / 100) (99 / 100))
  let qualityRaw := (List.range n).map fun i =>
    meanOpt [qROIC.getD i none, qPio.getD i none]
  let m6z := zscore (winsorize (base.map fun b => qToR b.Mom6m) (1 / 100) (99 / 100))
  let m12z := zscore (winsorize (base.map fun b => qToR b.Mom12m) (1 / 100) (99 / 100))
  let momScore := (List.range n).map fun i =>
    meanOpt [m6z.getD i none, m12z.getD i none]
  let industries := base.map fun b => b.industry
  let valueScore := industry_zscores valueRaw industries
  let qualityScore := industry_zscores qualityRaw industries
  let w := normWeights cfg
  let comp := (List.range n).map fun i =>
    compositeCell w (valueScore.getD i none) (qualityScore.getD i none) (momScore.getD i none)
  let pct := rankPct comp
  let rows := (List.range n).map fun i =>
    let b := base.getD i default
    { ticker := b.row.ticker
      Price := b.Price
      PE_TTM := b.PE_TTM
      FCFYield_TTM := b.FCFYield_TTM
      EVToEBITDA := b.EVToEBITDA
      ROIC := b.ROIC
      Leverage := b.Leverage
      Qual_ROA := b.Qual_ROA
      PiotroskiF := b.pf
      Mom6m := b.Mom6m
      Mom12m := b.Mom12m
      Volatility30d := b.Volatility30d
      Sharpe1y := b.Sharpe1y
      ValueScore := valueScore.getD i none
      QualityScore := qualityScore.getD i none
      MomScore := momScore.getD i none
      Composite := comp.getD i none
      CompositePctile := pct.getD i none
      ValueZ := valueScore.getD i none
      QualityZ := qualityScore.getD i none
      industry := b.industry
      sic := b.row.sic
      filed := b.row.filed
      cik := b.row.cik
      entity_name := b.row.entity_name : OutRow }
  List.insertionSort (fun a b => outLeByCompositeDesc a b = true) rows

/-- Embeds compute_factors.compute: empty inputs short-circuit to an empty
result; otherwise sort both tables, build the per-ticker TTM rollups, attach
Piotroski scores, keep the latest period per ticker, derive the per-ticker
columns and run the cross-sectional scoring stages. -/
noncomputable def compute (cfg : WeightsCfg) (prices : List PriceRow) (fnds : List FRow) :
    List OutRow :=
  if prices.isEmpty || fnds.isEmpty then []
  else
    let sortedPrices := List.insertionSort (fun a b => priceLexLe a b = true) prices
    let sortedFnds := List.insertionSort (fun a b => fndLexLe a b = true) fnds
    let tickers := (sortedFnds.map FRow.ticker).dedup
    let latest := tickers.filterMap fun t =>
      let grp := build_ttm_rollup (sortedFnds.filter fun r => r.ticker == t)
      match grp.getLast?, (piotroski_f_score grp).getLast? with
      | some row, some sc => some (row, sc)
      | _, _ => none
    computeScored cfg (latest.map (mkBaseRow sortedPrices))

/-- The seven flow quantities of the TTM rollup, each as the pair of its input
column and its output column (compute_factors._build_ttm_rollup, rolling_cols). -/
def flowPairs : List ((FRow → Option ℚ) × (TTMRow → Option ℚ)) :=
  [(FRow.Revenue, TTMRow.RevenueTTM),
   (FRow.NetIncome, TTMRow.NetIncomeTTM),
   (FRow.OperatingCF, TTMRow.OpCFTTM),
   (FRow.CapitalExpenditures, TTMRow.CapexTTM),
   (FRow.GrossProfit, TTMRow.GrossProfitTTM),
   (FRow.EBITDA, TTMRow.EBITDATTM),
   (FRow.InterestExpense, TTMRow.InterestExpenseTTM)]

/-- A fully populated quarterly record for concrete rollup inputs. -/
def mkFnRow (fe : ℤ) (rev ni sh opcf capex ta tl cash debt gp ca cl eb ie : ℚ) : FRow :=
  { ticker := "T"
    fiscal_end := fe
    Revenue := some rev
    NetIncome := some ni
    SharesDiluted := some sh
    OperatingCF := some opcf
    CapitalExpenditures := some capex
    TotalAssets := some ta
    TotalLiabilities := some tl
    CashAndEquivalents := some cash
    Debt := some debt
    GrossProfit := some gp
    CurrentAssets := some ca
    CurrentLiabilities := some cl
    EBITDA := some eb
    InterestExpense := some ie
    filed := 0
    cik := ""
    sic := ""
    entity_name := "" }

/-- First record of the concrete rollup input. -/
def c1row1 : FRow := mkFnRow 1 10 1 100 5 2 50 20 8 12 4 30 25 6 1

/-- Second record of the concrete rollup input. -/
def c1row2 : FRow := mkFnRow 2 20 3 100 7 2 55 21 9 11 5 31 24 8 1

/-- The concrete two-period rollup input, chronologically ordered. -/
def c1rows : List FRow := [c1row1, c1row2]

/-- A pandas comparison whose right operand is missing is false. -/
theorem cmpGt_none_right {α : Type} [LinearOrder α] (a : Option α) : cmpGt a none = false := by
  cases a <;> rfl

/-- A pandas comparison whose left operand is missing is false. -/
theorem cmpGt_none_left {α : Type} [LinearOrder α] (a : Option α) : cmpGt none a = false := by
  cases a <;> rfl

/-- A pandas strict-less comparison with a missing right operand is false. -/
theorem cmpLt_none_right {α : Type} [LinearOrder α] (a : Option α) : cmpLt a none = false := by
  cases a <;> rfl

/-- A pandas at-most comparison with a missing right operand is false. -/
theorem cmpLe_none_right {α : Type} [LinearOrder α] (a : Option α) : cmpLe a none = false := by
  cases a <;> rfl

/-- A guarded division by a missing denominator is undefined. -/
theorem divNZ_none_right {α : Type} [Div α] [Zero α] [DecidableEq α] (a : Option α) :
    divNZ a none = none := by
  cases a <;> rfl

/-- A guarded division by a zero denominator is undefined. -/
theorem divNZ_zero_right {α : Type} [Div α] [Zero α] [DecidableEq α] (a : Option α) :
    divNZ a (some 0) = none := by
  cases a <;> simp [divNZ]

/-- An indicator summand is at most one. -/
theorem ite_one_le {p : Prop} [Decidable p] : (if p then (1 : ℕ) else 0) ≤ 1 := by
  split
  · exact le_refl 1
  · exact Nat.zero_le 1

/-- Each row's Piotroski score is a sum of nine indicators, hence at most 9. -/
theorem scoreRow_le_nine (prev : Option TTMRow) (r : TTMRow) : scoreRow prev r ≤ 9 := by
  unfold scoreRow
  have h1 : (if cmpGt (roaOf r) (some 0) then (1 : ℕ) else 0) ≤ 1 := ite_one_le
  have h2 : (if cmpGt r.OpCFTTM (some 0) then (1 : ℕ) else 0) ≤ 1 := ite_one_le
  have h3 : (if cmpGt (roaOf r) (prevMap roaOf prev) then (1 : ℕ) else 0) ≤ 1 := ite_one_le
  have h4 : (if cmpGt (optSub r.OpCFTTM r.NetIncomeTTM) (some 0) then (1 : ℕ) else 0) ≤ 1 :=
    ite_one_le
  have h5 : (if cmpLt (leverageOf r) (prevMap leverageOf prev) then (1 : ℕ) else 0) ≤ 1 :=
    ite_one_le
  have h6 : (if cmpGt (liquidityOf r) (prevMap liquidityOf prev) then (1 : ℕ) else 0) ≤ 1 :=
    ite_one_le
  have h7 : (if cmpGt (marginOf r) (prevMap marginOf prev) then (1 : ℕ) else 0) ≤ 1 := ite_one_le
  have h8 : (if cmpGt (turnoverOf r) (prevMap turnoverOf prev) then (1 : ℕ) else 0) ≤ 1 :=
    ite_one_le
  have h9 : (if cmpLe r.SharesDilutedTTM (prevMap (fun p => p.SharesDilutedTTM) prev)
      then (1 : ℕ) else 0) ≤ 1 := ite_one_le
  omega

/-- The scorer emits one score per row. -/
theorem scoreAux_length (prev : Option TTMRow) (l : List TTMRow) :
    (scoreAux prev l).length = l.length := by
  induction l generalizing prev with
  | nil => rfl
  | cons r rest ih => simp [scoreAux, ih]

/-- Every score the scorer emits is at most 9. -/
theorem scoreAux_mem_le (prev : Option TTMRow) (l : List TTMRow) :
    ∀ s ∈ scoreAux prev l, s ≤ 9 := by
  induction l generalizing prev with
  | nil => intro s hs; simp [scoreAux] at hs
  | cons r rest ih =>
    intro s hs
    simp only [scoreAux, List.mem_cons] at hs
    rcases hs with rfl | hs
    · exact scoreRow_le_nine prev r
    · exact ih (some r) s hs

/-- At the first row (no prior period) only the three non-comparative criteria
can contribute. -/
theorem scoreRow_first (r : TTMRow) :
    scoreRow none r =
      (if cmpGt (roaOf r) (some 0) then 1 else 0) +
        (if cmpGt r.OpCFTTM (some 0) then 1 else 0) +
        (if cmpGt (optSub r.OpCFTTM r.NetIncomeTTM) (some 0) then 1 else 0) := by
  simp [scoreRow, prevMap, cmpGt_none_right, cmpLt_none_right, cmpLe_none_right]

/-- Claim C3: for every input sequence with the required columns, every row's
Piotroski F-score is an integer in [0, 9] (one score per row, never an
exception); comparisons against the non-existent prior period of the first row
contribute 0 (only the three sign tests remain), and a zero or missing
denominator makes the ratio undefined while comparisons against missing values
are false, never an error. -/
theorem piotroski_score_invariants (rows : List TTMRow) :
    (piotroski_f_score rows).length = rows.length ∧
    (∀ s ∈ piotroski_f_score rows, s ≤ 9) ∧
    (∀ r rest, List.Sorted (fun a b : TTMRow => a.fiscal_end ≤ b.fiscal_end) (r :: rest) →
      (piotroski_f_score (r :: rest)).head? =
        some ((if cmpGt (roaOf r) (some 0) then 1 else 0) +
          (if cmpGt r.OpCFTTM (some 0) then 1 else 0) +
          (if cmpGt (optSub r.OpCFTTM r.NetIncomeTTM) (some 0) then 1 else 0))) ∧
    (∀ a : Option ℚ, divNZ a (some 0) = none ∧ divNZ a none = none ∧
      cmpGt a none = false ∧ cmpGt none a = false ∧ cmpLt a none = false ∧
      cmpLe a none = false) := by
  refine ⟨?_, ?_, ?_, ?_⟩
  · rw [piotroski_f_score, scoreAux_length, List.length_insertionSort]
  · intro s hs
    exact scoreAux_mem_le none _ s hs
  · intro r rest hs
    rw [piotroski_f_score, List.Sorted.insertionSort_eq hs]
    simp [scoreAux, scoreRow_first]
  · intro a
    exact ⟨divNZ_zero_right a, divNZ_none_right a, cmpGt_none_right a, cmpGt_none_left a,
      cmpLt_none_right a, cmpLe_none_right a⟩

/-- Witness for claim C3 at a concrete one-row input: the sorted-input
hypothesis is discharged on a singleton and the first-row score evaluates to
the three non-comparative criteria, here all satisfied. -/
theorem piotroski_score_invariants_witness : (piotroski_f_score [pioRow1]).head? = some 3 := by
  have h := (piotroski_score_invariants [pioRow1]).2.2.1 pioRow1 [] (by simp)
  rw [h]
  norm_num [pioRow1, mkPioRow, roaOf, divNZ, cmpGt, optSub]

/-- Claim C2: on the three-period fixture of tests/test_piotroski.py the
Piotroski F-score of the first period is 3 and of the last period is 9. -/
theorem piotroski_fixture_first_and_last :
    (piotroski_f_score pioFixture).head? = some 3 ∧
    (piotroski_f_score pioFixture).getLast? = some 9 := by
  norm_num [piotroski_f_score, pioFixture, pioRow1, pioRow2, pioRow3, mkPioRow,
    List.insertionSort, List.orderedInsert, scoreAux, scoreRow, roaOf, leverageOf,
    liquidityOf, marginOf, turnoverOf, prevMap, cmpGt, cmpLt, cmpLe, divNZ, optSub]

/-- Claim C5: the weights applied to the composite sum to exactly 1; a
positive configured total is divided through, a non-positive total falls back
to the default triple, missing keys default to 0.4 / 0.4 / 0.2 individually,
and the composite of defined sub-scores is their weighted sum under the
renormalized weights. -/
theorem composite_weights_normalized (cfg : WeightsCfg) :
    (normWeights cfg).1 + (normWeights cfg).2.1 + (normWeights cfg).2.2 = 1 ∧
    (0 < (rawWeights cfg).1 + (rawWeights cfg).2.1 + (rawWeights cfg).2.2 →
      normWeights cfg =
        ((rawWeights cfg).1 /
            ((rawWeights cfg).1 + (rawWeights cfg).2.1 + (rawWeights cfg).2.2),
          (rawWeights cfg).2.1 /
            ((rawWeights cfg).1 + (rawWeights cfg).2.1 + (rawWeights cfg).2.2),
          (rawWeights cfg).2.2 /
            ((rawWeights cfg).1 + (rawWeights cfg).2.1 + (rawWeights cfg).2.2))) ∧
    ((rawWeights cfg).1 + (rawWeights cfg).2.1 + (rawWeights cfg).2.2 ≤ 0 →
      normWeights cfg = defaultWeights) ∧
    (cfg.value = none → (rawWeights cfg).1 = 2 / 5) ∧
    (cfg.quality = none → (rawWeights cfg).2.1 = 2 / 5) ∧
    (cfg.momentum = none → (rawWeights cfg).2.2 = 1 / 5) ∧
    ∀ v q m : ℝ,
      compositeCell (normWeights cfg) (some v) (some q) (some m) =
        some ((((normWeights cfg).1 : ℝ)) * v + (((normWeights cfg).2.1 : ℝ)) * q +
          (((normWeights cfg).2.2 : ℝ)) * m) := by
  refine ⟨?_, ?_, ?_, ?_, ?_, ?_, ?_⟩
  · rcases le_or_lt ((rawWeights cfg).1 + (rawWeights cfg).2.1 + (rawWeights cfg).2.2) 0 with
      h | h
    · simp only [normWeights, if_pos h, defaultWeights]
      norm_num
    · have hne : (rawWeights cfg).1 + (rawWeights cfg).2.1 + (rawWeights cfg).2.2 ≠ 0 :=
        ne_of_gt h
      simp only [normWeights, if_neg (not_le.mpr h)]
      field_simp
  · intro h
    simp only [normWeights, if_neg (not_le.mpr h)]
  · intro h
    simp only [normWeights, if_pos h]
  · intro h
    simp [rawWeights, h]
  · intro h
    simp [rawWeights, h]
  · intro h
    simp [rawWeights, h]
  · intro v q m
    simp [compositeCell, optAdd, optMul]

/-- Witness for claim C5 at the concrete configuration (1, 1, 2): the
positive-total hypothesis is discharged and the applied weights come out as
the configured ones divided by 4. -/
theorem composite_weights_normalized_witness :
    normWeights ⟨some 1, some 1, some 2⟩ = (1 / 4, 1 / 4, 1 / 2) := by
  have h := (composite_weights_normalized ⟨some 1, some 1, some 2⟩).2.1
    (by norm_num [rawWeights])
  rw [h]
  norm_num [rawWeights]

/-- Claim C6: with fewer than 127 (respectively 253) observed trading days the
6-month (respectively 12-month) momentum is undefined, and with enough history
it equals the percent change of the adjusted close over the last 126
(respectively 252) observations. -/
theorem momentum_history_thresholds (adj : List ℚ) :
    (adj.length < 127 → mom6m adj = none) ∧
    (adj.length < 253 → mom12m adj = none) ∧
    (127 ≤ adj.length → adj.getD (adj.length - 127) 0 ≠ 0 →
      mom6m adj = some (adj.getLast?.getD 0 / adj.getD (adj.length - 127) 0 - 1)) ∧
    (253 ≤ adj.length → adj.getD (adj.length - 253) 0 ≠ 0 →
      mom12m adj = some (adj.getLast?.getD 0 / adj.getD (adj.length - 253) 0 - 1)) := by
  refine ⟨?_, ?_, ?_, ?_⟩
  · intro h
    simp only [mom6m, pct_change_n]
    rw [if_pos (by omega)]
  · intro h
    simp only [mom12m, pct_change_n]
    rw [if_pos (by omega)]
  · intro h hbase
    simp only [mom6m, pct_change_n]
    rw [if_neg (by omega), if_neg hbase]
  · intro h hbase
    simp only [mom12m, pct_change_n]
    rw [if_neg (by omega), if_neg hbase]

/-- Witness for claim C6 on a concrete 127-day history: the threshold and
nonzero-base hypotheses are discharged and the 6-month momentum is defined. -/
theorem momentum_history_thresholds_witness :
    mom6m (List.replicate 126 1 ++ [2]) = some 1 := by
  have hlen : (List.replicate 126 (1 : ℚ) ++ [2]).length = 127 := by
    rw [List.length_append, List.length_replicate, List.length_singleton]
  have hsub : (List.replicate 126 (1 : ℚ) ++ [2]).length - 127 = 0 := by rw [hlen]
  have hbase : (List.replicate 126 (1 : ℚ) ++ [2]).getD
      ((List.replicate 126 (1 : ℚ) ++ [2]).length - 127) 0 = 1 := by
    rw [hsub, List.replicate_succ, List.cons_append]
    rfl
  have hlast : (List.replicate 126 (1 : ℚ) ++ [2]).getLast? = some 2 := by
    rw [List.getLast?_concat]
  have h := (momentum_history_thresholds (List.replicate 126 1 ++ [2])).2.2.1
    (by rw [hlen]) (by rw [hbase]; norm_num)
  rw [h, hbase, hlast]
  norm_num

/-- Claim C10: the percent-change computation is a total function which
returns undefined, rather than dividing, when the base observation is zero;
moreover whenever it is defined the series was long enough and the base
nonzero. -/
theorem pct_change_zero_base_guard (prices : List ℚ) (n : ℕ) :
    (n + 1 ≤ prices.length → prices.getD (prices.length - (n + 1)) 0 = 0 →
      pct_change_n prices n = none) ∧
    ((pct_change_n prices n).isSome →
      n + 1 ≤ prices.length ∧ prices.getD (prices.length - (n + 1)) 0 ≠ 0) := by
  constructor
  · intro h hbase
    simp only [pct_change_n]
    rw [if_neg (by omega), if_pos hbase]
  · intro hs
    simp only [pct_change_n] at hs
    by_cases h1 : prices.length < n + 1
    · rw [if_pos h1] at hs
      simp at hs
    · rw [if_neg h1] at hs
      by_cases h2 : prices.getD (prices.length - (n + 1)) 0 = 0
      · rw [if_pos h2] at hs
        simp at hs
      · exact ⟨by omega, h2⟩

/-- Witness for claim C10 on the concrete series [0, 5] with n = 1: the base
observation is zero, so the percent change is undefined. -/
theorem pct_change_zero_base_guard_witness : pct_change_n [0, 5] 1 = none :=
  (pct_change_zero_base_guard [0, 5] 1).1 (by norm_num) (by norm_num [List.getD])

/-- Claim C9: an empty price table or an empty fundamentals table makes the
factor computation return an empty result (and, being a total function, it
raises no exception). -/
theorem compute_empty_inputs (cfg : WeightsCfg) (prices : List PriceRow) (fnds : List FRow)
    (h : prices = [] ∨ fnds = []) : compute cfg prices fnds = [] := by
  rcases h with rfl | rfl
  · simp [compute]
  · simp [compute]

/-- Witness for claim C9 at concrete empty inputs. -/
theorem compute_empty_inputs_witness : compute ⟨none, none, none⟩ [] [] = [] :=
  compute_empty_inputs ⟨none, none, none⟩ [] [] (Or.inl rfl)

/-- The rollup walker emits one output row per input row. -/
theorem ttmAux_length (prev l : List FRow) : (ttmAux prev l).length = l.length := by
  induction l generalizing prev with
  | nil => rfl
  | cons g rest ih => simp [ttmAux, ih]

/-- The rollup walker passes the fiscal period ends through in order. -/
theorem ttmAux_map_fiscal (prev l : List FRow) :
    (ttmAux prev l).map TTMRow.fiscal_end = l.map FRow.fiscal_end := by
  induction l generalizing prev with
  | nil => rfl
  | cons g rest ih => simp [ttmAux, ih, mkTTMRow]

/-- Row i of the rollup walker is built from record i with the reversed prefix
of earlier records (and the carried context) as its window. -/
theorem ttmAux_getD (l : List FRow) :
    ∀ (prev : List FRow) (i : ℕ), i < l.length →
      (ttmAux prev l).getD i default = mkTTMRow ((l.take i).reverse ++ prev) (l.getD i default) := by
  induction l with
  | nil => intro prev i hi; simp at hi
  | cons g rest ih =>
    intro prev i hi
    cases i with
    | zero => simp [ttmAux]
    | succ i =>
      have hi' : i < rest.length := by simpa using hi
      show (mkTTMRow prev g :: ttmAux (g :: prev) rest).getD (i + 1) default = _
      rw [List.getD_cons_succ, List.getD_cons_succ, ih (g :: prev) i hi']
      congr 1
      rw [List.take_succ_cons, List.reverse_cons, List.append_assoc, List.singleton_append]

/-- When every value a filterMap sees is defined, it coincides with mapping
out the defaults. -/
theorem filterMap_all_some {α : Type} (f : α → Option ℚ) (l : List α)
    (h : ∀ r ∈ l, (f r).isSome) :
    l.filterMap f = l.map fun r => (f r).getD 0 := by
  induction l with
  | nil => rfl
  | cons a t ih =>
    have ha : (f a).isSome := h a (List.mem_cons_self a t)
    rcases Option.isSome_iff_exists.mp ha with ⟨v, hv⟩
    rw [List.map_cons, List.filterMap_cons, hv]
    rw [ih fun r hr => h r (List.mem_cons_of_mem a hr)]
    simp [hv]

/-- On an all-defined window the rolling sum is the plain sum of the window. -/
theorem rollWinSum_eval (f : FRow → Option ℚ) (prev : List FRow) (cur : FRow)
    (hdef : ∀ r ∈ cur :: prev.take 3, (f r).isSome) :
    rollWinSum f prev cur = some (((cur :: prev.take 3).map fun r => (f r).getD 0).sum) := by
  unfold rollWinSum
  rw [filterMap_all_some f _ hdef]
  simp

/-- An in-range getD lookup is the stored optional element. -/
theorem getElem_opt_of_lt {α : Type} [Inhabited α] (l : List α) (i : ℕ) (hi : i < l.length) :
    l[i]? = some (l.getD i default) := by
  rw [List.getD_eq_getElem?_getD]
  cases hg : l[i]? with
  | none =>
    rw [List.getElem?_eq_none_iff] at hg
    omega
  | some v => rfl

/-- An in-range getD lookup is a member of the list. -/
theorem getD_mem_of_lt {α : Type} [Inhabited α] (l : List α) (i : ℕ) (hi : i < l.length) :
    l.getD i default ∈ l :=
  List.getElem?_mem (getElem_opt_of_lt l i hi)

/-- The four-element trailing window at position i is record i consed onto the
three-element trailing window of its prefix. -/
theorem take_reverse_window (l : List FRow) (i : ℕ) (hi : i < l.length) :
    (l.take (i + 1)).reverse.take 4 = l.getD i default :: (l.take i).reverse.take 3 := by
  have h1 : l.take (i + 1) = l.take i ++ [l.getD i default] := by
    rw [List.take_succ, getElem_opt_of_lt l i hi]
    rfl
  rw [h1, List.reverse_append, List.reverse_singleton, List.singleton_append]
  rfl

/-- Claim C1: for every single-ticker sequence of quarterly records (all flow
inputs present, fiscal ends strictly increasing), the TTM rollup has one output
row per input period in chronological order, and each of the seven flow
quantities at row i is exactly the sum of that quantity over the last
min(i+1, 4) periods. -/
theorem ttm_rollup_window_sums (rows : List FRow)
    (hchron : List.Pairwise (fun a b : FRow => a.fiscal_end < b.fiscal_end) rows)
    (hdef : ∀ r ∈ rows, ∀ p ∈ flowPairs, (p.1 r).isSome) :
    (build_ttm_rollup rows).length = rows.length ∧
    (build_ttm_rollup rows).map TTMRow.fiscal_end = rows.map FRow.fiscal_end ∧
    ∀ p ∈ flowPairs, ∀ i, i < rows.length →
      ((rows.take (i + 1)).reverse.take 4).length = min (i + 1) 4 ∧
      p.2 ((build_ttm_rollup rows).getD i default) =
        some ((((rows.take (i + 1)).reverse.take 4).map fun r => (p.1 r).getD 0).sum) := by
  have hsorted : List.Sorted (fun a b : FRow => a.fiscal_end ≤ b.fiscal_end) rows :=
    hchron.imp fun h => le_of_lt h
  have hb : build_ttm_rollup rows = ttmAux [] rows := by
    rw [build_ttm_rollup, List.Sorted.insertionSort_eq hsorted]
  refine ⟨by rw [hb, ttmAux_length], by rw [hb, ttmAux_map_fiscal], ?_⟩
  intro p hp i hi
  constructor
  · rw [List.length_take, List.length_reverse, List.length_take]
    omega
  · rw [hb, ttmAux_getD rows [] i hi, List.append_nil]
    have hwin : ∀ r ∈ rows.getD i default :: (rows.take i).reverse.take 3, (p.1 r).isSome := by
      intro r hr
      rcases List.mem_cons.mp hr with rfl | hr
      · exact hdef _ (getD_mem_of_lt rows i hi) p hp
      · exact hdef r (List.mem_of_mem_take (List.mem_reverse.mp (List.mem_of_mem_take hr)))
          p hp
    have hfield : ∀ prev cur, p.2 (mkTTMRow prev cur) = rollWinSum p.1 prev cur := by
      simp only [flowPairs, List.mem_cons, List.not_mem_nil, or_false] at hp
      rcases hp with rfl | rfl | rfl | rfl | rfl | rfl | rfl <;> intro prev cur <;> rfl
    rw [hfield, rollWinSum_eval p.1 _ _ hwin, take_reverse_window rows i hi]

/-- Witness for claim C1 on the concrete two-period input: the hypotheses are
discharged and the RevenueTTM of the second row is the sum 10 + 20 = 30 of the
two available periods. -/
theorem ttm_rollup_window_sums_witness :
    TTMRow.RevenueTTM ((build_ttm_rollup c1rows).getD 1 default) = some 30 := by
  have hch : List.Pairwise (fun a b : FRow => a.fiscal_end < b.fiscal_end) c1rows := by
    norm_num [c1rows, c1row1, c1row2, mkFnRow, List.pairwise_cons]
  have hdef : ∀ r ∈ c1rows, ∀ p ∈ flowPairs, (p.1 r).isSome := by
    intro r hr p hp
    simp only [c1rows, List.mem_cons, List.not_mem_nil, or_false] at hr
    simp only [flowPairs, List.mem_cons, List.not_mem_nil, or_false] at hp
    rcases hr with rfl | rfl <;>
      rcases hp with rfl | rfl | rfl | rfl | rfl | rfl | rfl <;>
        simp [c1row1, c1row2, mkFnRow]
  have h := (ttm_rollup_window_sums c1rows hch hdef).2.2
    (FRow.Revenue, TTMRow.RevenueTTM) (by simp [flowPairs]) 1 (by norm_num [c1rows])
  have h2 : TTMRow.RevenueTTM ((build_ttm_rollup c1rows).getD 1 default) =
      some ((((c1rows.take (1 + 1)).reverse.take 4).map fun r => (FRow.Revenue r).getD 0).sum) :=
    h.2
  rw [h2]
  norm_num [c1rows, c1row1, c1row2, mkFnRow]

/-- Counting strictly-below and equal entries together counts the at-most
entries. -/
theorem filter_lt_add_filter_eq (l : List ℚ) (v : ℚ) :
    (l.filter fun y => decide (y < v)).length + (l.filter fun y => decide (y = v)).length =
      (l.filter fun y => decide (y ≤ v)).length := by
  induction l with
  | nil => rfl
  | cons a t ih =>
    simp only [List.filter_cons, decide_eq_true_eq]
    rcases lt_trichotomy a v with h | h | h
    · rw [if_pos h, if_pos (le_of_lt h), if_neg (ne_of_lt h)]
      simp only [List.length_cons]
      omega
    · subst h
      rw [if_neg (lt_irrefl a), if_pos (le_refl a), if_pos rfl]
      simp only [List.length_cons]
      omega
    · rw [if_neg (not_lt.mpr (le_of_lt h)), if_neg (not_le.mpr h), if_neg (ne_of_gt h)]
      exact ih

/-- In a duplicate-free list a present value is counted exactly once. -/
theorem filter_eq_length_nodup (l : List ℚ) (hl : l.Nodup) (v : ℚ) (hv : v ∈ l) :
    (l.filter fun y => decide (y = v)).length = 1 := by
  induction l with
  | nil => simp at hv
  | cons a t ih =>
    rcases List.nodup_cons.mp hl with ⟨hna, hnd⟩
    by_cases hav : a = v
    · subst hav
      simp only [List.filter_cons, decide_eq_true_eq, eq_self_iff_true, if_true]
      have hnil : t.filter (fun y => decide (y = a)) = [] := by
        rw [List.filter_eq_nil_iff]
        intro b hb
        simp only [decide_eq_true_eq]
        intro hba
        exact hna (hba ▸ hb)
      rw [hnil]
      rfl
    · have hvt : v ∈ t := by
        rcases List.mem_cons.mp hv with h | h
        · exact absurd h.symm hav
        · exact h
      simp only [List.filter_cons, decide_eq_true_eq, if_neg hav]
      exact ih hnd hvt

/-- Claim C7 (amended): a defined composite entry gets the average-method
percentile rank among the defined composites; it always lies in [0, 1], and it
equals the fraction of defined composites at or below the entry exactly when
the defined composites are pairwise distinct. -/
theorem composite_pctile_average_rank (xs : List (Option ℚ)) (i : ℕ) (v : ℚ)
    (hv : xs[i]? = some (some v)) :
    (rankPct xs)[i]? = some (some (rankPctVal (xs.filterMap id) v)) ∧
    0 ≤ rankPctVal (xs.filterMap id) v ∧ rankPctVal (xs.filterMap id) v ≤ 1 ∧
    ((xs.filterMap id).Nodup →
      rankPctVal (xs.filterMap id) v =
        ((((xs.filterMap id).filter fun y => decide (y ≤ v)).length : ℚ) /
          ((xs.filterMap id).length : ℚ))) := by
  have hmem : some v ∈ xs := List.getElem?_mem hv
  have hvmem : v ∈ xs.filterMap id := List.mem_filterMap.mpr ⟨some v, hmem, rfl⟩
  have hmpos : 0 < (xs.filterMap id).length :=
    List.length_pos.mpr (List.ne_nil_of_mem hvmem)
  have heq1 : 1 ≤ ((xs.filterMap id).filter fun y => decide (y = v)).length := by
    have hin : v ∈ (xs.filterMap id).filter fun y => decide (y = v) :=
      List.mem_filter.mpr ⟨hvmem, by simp⟩
    exact List.length_pos.mpr (List.ne_nil_of_mem hin)
  have hsum := filter_lt_add_filter_eq (xs.filterMap id) v
  have hle : ((xs.filterMap id).filter fun y => decide (y ≤ v)).length ≤
      (xs.filterMap id).length := List.length_filter_le _ _
  refine ⟨?_, ?_, ?_, ?_⟩
  · rw [rankPct, List.getElem?_map, hv]
    rfl
  · apply div_nonneg
    · positivity
    · positivity
  · rw [rankPctVal]
    rw [div_le_one (by exact_mod_cast hmpos)]
    have h1 : ((((xs.filterMap id).filter fun y => decide (y = v)).length : ℚ)) ≥ 1 := by
      exact_mod_cast heq1
    have h2 : (((xs.filterMap id).filter fun y => decide (y < v)).length : ℚ) +
        (((xs.filterMap id).filter fun y => decide (y = v)).length : ℚ) ≤
        ((xs.filterMap id).length : ℚ) := by
      exact_mod_cast hsum ▸ hle
    linarith
  · intro hnd
    have hb := filter_eq_length_nodup (xs.filterMap id) hnd v hvmem
    have hlelen : (((xs.filterMap id).filter fun y => decide (y ≤ v)).length : ℚ) =
        (((xs.filterMap id).filter fun y => decide (y < v)).length : ℚ) + 1 := by
      rw [← hsum, hb]
      push_cast
      ring
    rw [rankPctVal, hb, hlelen]
    norm_num

/-- Witness for claim C7 (amended) at the concrete column [1, 2], entry 1. -/
theorem composite_pctile_average_rank_witness :
    (rankPct [some (1 : ℚ), some 2])[1]? = some (some (rankPctVal [1, 2] 2)) :=
  (composite_pctile_average_rank [some (1 : ℚ), some 2] 1 2 (by rfl)).1

/-- Counterexample to claim C7 as stated: with the tied composite column
[1, 1] the percentile-rank field is 3/4 for both rows, while the fraction of
tickers at or below each row's composite is 1. -/
theorem pctile_ties_counterexample :
    rankPct [some (1 : ℚ), some 1] = [some (3 / 4), some (3 / 4)] ∧
    (((([some (1 : ℚ), some 1].filterMap id).filter fun y => decide (y ≤ 1)).length : ℚ) /
        (([some (1 : ℚ), some 1].filterMap id).length : ℚ)) = 1 ∧
    (3 / 4 : ℚ) ≠ 1 := by
  refine ⟨?_, ?_, by norm_num⟩
  · norm_num [rankPct, rankPctVal, List.filterMap, List.filter]
  · norm_num [List.filterMap, List.filter]

/-- An in-range lookup through a map evaluates the function at the stored
element, for any defaults. -/
theorem getD_map_eq {α β : Type} (f : α → β) (l : List α) (k : ℕ) (hk : k < l.length)
    (d : α) (e : β) : (l.map f).getD k e = f (l.getD k d) := by
  rw [List.getD_eq_getElem?_getD, List.getD_eq_getElem?_getD, List.getElem?_map]
  cases hg : l[k]? with
  | none =>
    rw [List.getElem?_eq_none_iff] at hg
    omega
  | some v => rfl

/-- filterMap id keeps a defined head. -/
theorem filterMap_id_cons_some (a : ℝ) (t : List (Option ℝ)) :
    (some a :: t).filterMap id = a :: t.filterMap id := rfl

/-- filterMap id drops a missing head. -/
theorem filterMap_id_cons_none (t : List (Option ℝ)) :
    ((none : Option ℝ) :: t).filterMap id = t.filterMap id := rfl

/-- A filter that accepts exactly one element of a duplicate-free list returns
that element alone. -/
theorem filter_eq_singleton_of_nodup (l : List ℕ) (p : ℕ → Bool) (i : ℕ) (hnd : l.Nodup)
    (hi : i ∈ l) (hpi : p i = true) (hu : ∀ j ∈ l, p j = true → j = i) :
    l.filter p = [i] := by
  induction l with
  | nil => simp at hi
  | cons a t ih =>
    rcases List.nodup_cons.mp hnd with ⟨hna, hnd2⟩
    by_cases hpa : p a = true
    · have ha : a = i := hu a (List.mem_cons_self a t) hpa
      subst ha
      rw [List.filter_cons, if_pos hpa]
      have hnil : t.filter p = [] := by
        rw [List.filter_eq_nil_iff]
        intro b hb hpb
        exact hna ((hu b (List.mem_cons_of_mem a hb) hpb) ▸ hb)
      rw [hnil]
    · rw [List.filter_cons, if_neg hpa]
      have hit : i ∈ t := by
        rcases List.mem_cons.mp hi with h | h
        · rw [h] at hpi
          exact absurd hpi hpa
        · exact h
      exact ih hnd2 hit fun j hj hpj => hu j (List.mem_cons_of_mem a hj) hpj

/-- Imputing every cell with a default sums to the defined sum plus the count
of missing cells times the default. -/
theorem sum_map_getD (xs : List (Option ℝ)) (m : ℝ) :
    (xs.map fun o => o.getD m).sum =
      (xs.filterMap id).sum + ((xs.length : ℝ) - ((xs.filterMap id).length : ℝ)) * m := by
  induction xs with
  | nil => simp
  | cons o t ih =>
    have hdle : (t.filterMap id).length ≤ t.length := List.length_filterMap_le id t
    cases o with
    | some a =>
      simp only [List.map_cons, List.sum_cons, Option.getD_some, filterMap_id_cons_some,
        List.sum_cons, List.length_cons, ih]
      push_cast
      ring
    | none =>
      simp only [List.map_cons, List.sum_cons, Option.getD_none, filterMap_id_cons_none,
        List.length_cons, ih]
      push_cast
      ring

/-- After imputation every cell is defined. -/
theorem filterMap_id_map_getD (xs : List (Option ℝ)) (m : ℝ) :
    ((xs.map fun o => some (o.getD m)).filterMap id) = xs.map fun o => o.getD m := by
  induction xs with
  | nil => rfl
  | cons o t ih =>
    rw [List.map_cons, filterMap_id_cons_some, List.map_cons, ih]

/-- Imputing the column mean preserves the column mean (the pandas
fillna-with-mean step feeding the group z-score). -/
theorem mean_fillnaMean (xs : List (Option ℝ)) (m : ℝ) (h : meanOpt xs = some m) :
    meanOpt (fillnaMean xs) = some m := by
  have hd0 : (xs.filterMap id).length ≠ 0 := by
    intro hc
    simp only [meanOpt] at h
    rw [if_pos hc] at h
    exact Option.noConfusion h
  have hm : (xs.filterMap id).sum / ((xs.filterMap id).length : ℝ) = m := by
    simp only [meanOpt] at h
    rw [if_neg hd0] at h
    exact Option.some.inj h
  have hdc : (((xs.filterMap id).length : ℕ) : ℝ) ≠ 0 := Nat.cast_ne_zero.mpr hd0
  have hS : (xs.filterMap id).sum = m * ((xs.filterMap id).length : ℝ) := by
    rw [div_eq_iff hdc] at hm
    exact hm
  have hlen0 : xs.length ≠ 0 := by
    have := List.length_filterMap_le id xs
    omega
  have hlc : ((xs.length : ℕ) : ℝ) ≠ 0 := Nat.cast_ne_zero.mpr hlen0
  have hfill : fillnaMean xs = xs.map fun o => some (o.getD m) := by
    rw [fillnaMean.eq_def, h]
  rw [hfill]
  simp only [meanOpt]
  rw [filterMap_id_map_getD]
  have hlm : (xs.map fun o => o.getD m).length = xs.length := List.length_map _ _
  rw [hlm, if_neg hlen0, sum_map_getD]
  congr 1
  rw [div_eq_iff hlc, hS]
  ring

/-- The mean of a single defined cell is that cell. -/
theorem meanOpt_single (x : ℝ) : meanOpt [some x] = some x := by
  norm_num [meanOpt, List.filterMap_cons]

/-- The mean of a single missing cell is undefined. -/
theorem meanOpt_single_none : meanOpt [(none : Option ℝ)] = none := by
  norm_num [meanOpt, List.filterMap_cons]

/-- Imputation does nothing to a single defined cell. -/
theorem fillnaMean_single (x : ℝ) : fillnaMean [some x] = [some x] := by
  rw [fillnaMean.eq_def, meanOpt_single]
  rfl

/-- Imputation does nothing to a single missing cell (the mean is undefined). -/
theorem fillnaMean_single_none : fillnaMean [(none : Option ℝ)] = [none] := by
  rw [fillnaMean.eq_def, meanOpt_single_none]

/-- A single defined cell has zero standard deviation and z-scores to zero. -/
theorem zscore_single (x : ℝ) : zscore [some x] = [some 0] := by
  have hv : varPopOpt [some x] = some 0 := by
    rw [varPopOpt.eq_def, meanOpt_single]
    norm_num [List.filterMap_cons]
  have hs : stdPopOpt [some x] = some 0 := by
    rw [stdPopOpt, hv]
    show some (Real.sqrt 0) = some 0
    rw [Real.sqrt_zero]
  rw [zscore.eq_def, hs]
  simp

/-- A single missing cell has an undefined standard deviation and z-scores to
zero through the all-zero branch. -/
theorem zscore_single_none : zscore [(none : Option ℝ)] = [some 0] := by
  have hs : stdPopOpt [(none : Option ℝ)] = none := by
    rw [stdPopOpt, varPopOpt.eq_def, meanOpt_single_none]
    rfl
  rw [zscore.eq_def, hs]
  rfl

/-- A singleton group standardizes to exactly zero whether or not its only
value is defined. -/
theorem zscore_fillna_single (o : Option ℝ) : zscore (fillnaMean [o]) = [some 0] := by
  cases o with
  | some x =>
    rw [fillnaMean_single, zscore_single]
  | none =>
    rw [fillnaMean_single_none, zscore_single_none]

/-- A missing cell of any group standardizes to exactly zero: imputation turns
it into the group mean, whose z-score is zero, and the degenerate branches map
it to zero as well. -/
theorem zscore_fillna_entry_zero (grp : List (Option ℝ)) (k : ℕ) (hk : k < grp.length)
    (hgk : grp.getD k none = none) :
    (zscore (fillnaMean grp)).getD k none = some 0 := by
  cases hm : meanOpt grp with
  | none =>
    have hfill : fillnaMean grp = grp := by rw [fillnaMean.eq_def, hm]
    have hstd : stdPopOpt grp = none := by
      rw [stdPopOpt, varPopOpt.eq_def, hm]
      rfl
    rw [hfill, zscore.eq_def, hstd]
    simp only []
    rw [getD_map_eq (fun _ => some 0) grp k hk none none]
  | some m =>
    have hfill : fillnaMean grp = grp.map fun o => some (o.getD m) := by
      rw [fillnaMean.eq_def, hm]
    have hmean2 : meanOpt (fillnaMean grp) = some m := mean_fillnaMean grp m hm
    have hlen2 : k < (fillnaMean grp).length := by
      rw [hfill, List.length_map]
      exact hk
    have hentry : (fillnaMean grp).getD k none = some m := by
      rw [hfill, getD_map_eq (fun o => some (o.getD m)) grp k hk none none, hgk]
      rfl
    rcases hstd : stdPopOpt (fillnaMean grp) with _ | s
    · rw [zscore.eq_def, hstd]
      simp only []
      rw [getD_map_eq (fun _ => some 0) (fillnaMean grp) k hlen2 none none]
    · rw [zscore.eq_def, hstd]
      simp only []
      by_cases hz : s = 0
      · rw [if_pos hz, getD_map_eq (fun _ => some 0) (fillnaMean grp) k hlen2 none none]
      · rw [if_neg hz,
          getD_map_eq (Option.map fun x => (x - (meanOpt (fillnaMean grp)).getD 0) / s)
            (fillnaMean grp) k hlen2 none none, hentry, hmean2]
        show some ((m - m) / s) = some 0
        rw [sub_self, zero_div]

/-- The sole member of a singleton industry group standardizes to exactly 0. -/
theorem industry_singleton_entry_zero (values : List (Option ℝ)) (industries : List String)
    (i : ℕ) (hi : i < values.length)
    (hu : ∀ j < values.length, industries.getD j "" = industries.getD i "" → j = i) :
    (industry_zscores values industries)[i]? = some (some 0) := by
  simp only [industry_zscores, List.getElem?_map, List.getElem?_range hi, Option.map_some']
  have hidxs : (List.range values.length).filter
      (fun j => decide (industries.getD j "" = industries.getD i "")) = [i] :=
    filter_eq_singleton_of_nodup _ _ i (List.nodup_range _) (List.mem_range.mpr hi)
      (by simp) fun j hj hpj => hu j (List.mem_range.mp hj) (of_decide_eq_true hpj)
  rw [hidxs, List.map_cons, List.map_nil, List.indexOf_cons_self, zscore_fillna_single]
  rfl

/-- A missing value standardizes to exactly 0 inside its industry group. -/
theorem industry_missing_entry_zero (values : List (Option ℝ)) (industries : List String)
    (i : ℕ) (hi : i < values.length) (hnone : values.getD i none = none) :
    (industry_zscores values industries)[i]? = some (some 0) := by
  simp only [industry_zscores, List.getElem?_map, List.getElem?_range hi, Option.map_some']
  have hmem : i ∈ (List.range values.length).filter
      (fun j => decide (industries.getD j "" = industries.getD i "")) :=
    List.mem_filter.mpr ⟨List.mem_range.mpr hi, by simp⟩
  have hk : ((List.range values.length).filter
      (fun j => decide (industries.getD j "" = industries.getD i ""))).indexOf i <
      ((List.range values.length).filter
        (fun j => decide (industries.getD j "" = industries.getD i ""))).length :=
    List.indexOf_lt_length.mpr hmem
  have hkm : ((List.range values.length).filter
      (fun j => decide (industries.getD j "" = industries.getD i ""))).indexOf i <
      (((List.range values.length).filter
        (fun j => decide (industries.getD j "" = industries.getD i ""))).map
          fun j => values.getD j none).length := by
    rw [List.length_map]
    exact hk
  refine congrArg some ?_
  refine zscore_fillna_entry_zero _ _ hkm ?_
  rw [getD_map_eq (fun j => values.getD j none) _ _ hk 0 none]
  have hix : ((List.range values.length).filter
      (fun j => decide (industries.getD j "" = industries.getD i ""))).getD
      (((List.range values.length).filter
        (fun j => decide (industries.getD j "" = industries.getD i ""))).indexOf i) 0 = i := by
    rw [List.getD_eq_getElem?_getD, List.getElem?_eq_getElem hk, List.getElem_indexOf hk]
    rfl
  rw [hix]
  exact hnone

/-- The defined values of the Tech pair column. -/
theorem mean_pair12 : meanOpt [some 1, some 2] = some (3 / 2) := by
  norm_num [meanOpt, List.filterMap_cons]

/-- Population variance of the Tech pair column. -/
theorem var_pair12 : varPopOpt [some 1, some 2] = some (1 / 4) := by
  rw [varPopOpt.eq_def, mean_pair12]
  norm_num [List.filterMap_cons]

/-- Population standard deviation of the Tech pair column. -/
theorem std_pair12 : stdPopOpt [some 1, some 2] = some (1 / 2) := by
  rw [stdPopOpt, var_pair12]
  show some (Real.sqrt (1 / 4)) = some (1 / 2)
  rw [show (1 / 4 : ℝ) = (1 / 2) ^ 2 by norm_num, Real.sqrt_sq (by norm_num : (0:ℝ) ≤ 1 / 2)]

/-- Imputation does nothing to the fully defined Tech pair column. -/
theorem fillna_pair12 : fillnaMean [some 1, some 2] = [some 1, some 2] := by
  rw [fillnaMean.eq_def, mean_pair12]
  rfl

/-- The Tech pair z-scores to -1 and +1 exactly. -/
theorem zscore_pair12 : zscore [some 1, some 2] = [some (-1), some 1] := by
  rw [zscore.eq_def, std_pair12]
  simp only []
  rw [if_neg (by norm_num : (1 / 2 : ℝ) ≠ 0), mean_pair12]
  norm_num

/-- The concrete industry-standardization example of the spec: two-member Tech
group standardizes to -1 and +1, the Utilities singleton to exactly 0. -/
theorem industry_concrete_triple :
    industry_zscores [some 1, some 2, some 3] ["Tech", "Tech", "Utilities"] =
      [some (-1), some 1, some 0] := by
  simp only [industry_zscores]
  rw [show ([some (1:ℝ), some 2, some 3] : List (Option ℝ)).length = 3 from rfl]
  rw [show List.range 3 = [0, 1, 2] from rfl]
  simp only [List.map_cons, List.map_nil]
  rw [show (["Tech", "Tech", "Utilities"] : List String).getD 0 "" = "Tech" from rfl]
  rw [show (["Tech", "Tech", "Utilities"] : List String).getD 1 "" = "Tech" from rfl]
  rw [show (["Tech", "Tech", "Utilities"] : List String).getD 2 "" = "Utilities" from rfl]
  rw [show ([0, 1, 2].filter fun j =>
      decide ((["Tech", "Tech", "Utilities"] : List String).getD j "" = "Tech")) = [0, 1]
    from by decide]
  rw [show ([0, 1, 2].filter fun j =>
      decide ((["Tech", "Tech", "Utilities"] : List String).getD j "" = "Utilities")) = [2]
    from by decide]
  rw [show ([0, 1].map fun j => ([some (1:ℝ), some 2, some 3] : List (Option ℝ)).getD j none) =
      [some 1, some 2] from rfl]
  rw [show ([2].map fun j => ([some (1:ℝ), some 2, some 3] : List (Option ℝ)).getD j none) =
      [some 3] from rfl]
  rw [fillna_pair12, zscore_pair12, zscore_fillna_single (some 3)]
  rfl

/-- Claim C4 (amended, the winsorize step removed): industry-relative
standardization imputes each group's own mean for missing entries and then
z-scores with the group's own mean and population standard deviation; every
singleton-member group standardizes to exactly 0, every imputed (missing)
entry standardizes to exactly 0, and on values 1, 2, 3 with industries Tech,
Tech, Utilities the result is -1, +1, 0. -/
theorem industry_group_standardization :
    (∀ (values : List (Option ℝ)) (industries : List String) (i : ℕ),
      i < values.length →
      (∀ j < values.length, industries.getD j "" = industries.getD i "" → j = i) →
      (industry_zscores values industries)[i]? = some (some 0)) ∧
    (∀ (values : List (Option ℝ)) (industries : List String) (i : ℕ),
      i < values.length → values.getD i none = none →
      (industry_zscores values industries)[i]? = some (some 0)) ∧
    industry_zscores [some 1, some 2, some 3] ["Tech", "Tech", "Utilities"] =
      [some (-1), some 1, some 0] :=
  ⟨fun v ind i hi hu => industry_singleton_entry_zero v ind i hi hu,
   fun v ind i hi hn => industry_missing_entry_zero v ind i hi hn,
   industry_concrete_triple⟩

/-- Witness for claim C4 (amended) at a concrete singleton group. -/
theorem industry_group_standardization_witness :
    (industry_zscores [some (7:ℝ)] ["Solo"])[0]? = some (some 0) :=
  industry_group_standardization.1 [some 7] ["Solo"] 0 (by simp)
    (by
      intro j hj h2
      have hj1 : j < 1 := by simpa using hj
      omega)

/-- Evaluation rule for the linear-interpolation quantile in the interpolating
branch, given the sorted list, its length, and the floor of the fractional
position. -/
theorem quantileLin_eval (vals : List ℝ) (q : ℝ) (s : List ℝ) (hne : ¬vals.isEmpty = true)
    (hs : List.insertionSort (fun a b : ℝ => a ≤ b) vals = s) (n i : ℕ)
    (hn : s.length = n) (hq : Nat.floor (q * ((n : ℝ) - 1)) = i) (hi1 : i + 1 < n) :
    quantileLin vals q =
      some (s.getD i 0 + (q * ((n : ℝ) - 1) - (i : ℝ)) * (s.getD (i + 1) 0 - s.getD i 0)) := by
  simp only [quantileLin]
  rw [if_neg hne, hs, hn, hq, if_pos hi1]

/-- The four-point counterexample column is already sorted. -/
theorem sorted0123 : List.insertionSort (fun a b : ℝ => a ≤ b) [0, 1, 2, 3] = [0, 1, 2, 3] :=
  List.Sorted.insertionSort_eq (by norm_num [List.sorted_cons])

/-- The 1st-percentile cut of the counterexample column. -/
theorem quantile_lo_0123 : quantileLin [0, 1, 2, 3] (1 / 100) = some (3 / 100) := by
  rw [quantileLin_eval [0, 1, 2, 3] (1 / 100) [0, 1, 2, 3] (by simp) sorted0123 4 0 rfl
    (by rw [Nat.floor_eq_zero]; push_cast; norm_num) (by norm_num)]
  norm_num [List.getD_cons_zero, List.getD_cons_succ]

/-- The 99th-percentile cut of the counterexample column. -/
theorem quantile_hi_0123 : quantileLin [0, 1, 2, 3] (99 / 100) = some (297 / 100) := by
  rw [quantileLin_eval [0, 1, 2, 3] (99 / 100) [0, 1, 2, 3] (by simp) sorted0123 4 2 rfl
    (by rw [Nat.floor_eq_iff (by positivity)]; push_cast; norm_num) (by norm_num)]
  norm_num [List.getD_cons_zero, List.getD_cons_succ]

/-- Winsorizing the counterexample column clips its endpoints to the
interpolated percentile cuts. -/
theorem winsorize_c4vals :
    winsorize c4vals (1 / 100) (99 / 100) = [some (3 / 100), some 1, some 2, some (297 / 100)] := by
  simp only [winsorize]
  rw [if_neg (by simp [c4vals])]
  rw [show c4vals.filterMap id = [0, 1, 2, 3] from rfl]
  rw [quantile_lo_0123, quantile_hi_0123]
  simp only [c4vals, List.map_cons, List.map_nil, Option.map_some']
  norm_num [max_def, min_def]

/-- Mean of the counterexample column. -/
theorem mean_c4vals : meanOpt c4vals = some (3 / 2) := by
  norm_num [c4vals, meanOpt, List.filterMap_cons]

/-- Population variance of the counterexample column. -/
theorem var_c4vals : varPopOpt c4vals = some (5 / 4) := by
  rw [varPopOpt.eq_def, mean_c4vals]
  norm_num [c4vals, List.filterMap_cons]

/-- Population standard deviation of the counterexample column. -/
theorem std_c4vals : stdPopOpt c4vals = some (Real.sqrt (5 / 4)) := by
  rw [stdPopOpt, var_c4vals]
  rfl

/-- Imputation does nothing to the fully defined counterexample column. -/
theorem fillna_c4vals : fillnaMean c4vals = c4vals := by
  rw [fillnaMean.eq_def, mean_c4vals]
  rfl

/-- The z-scores of the raw counterexample column. -/
theorem zscore_c4vals :
    zscore c4vals =
      [some ((0 - 3 / 2) / Real.sqrt (5 / 4)), some ((1 - 3 / 2) / Real.sqrt (5 / 4)),
        some ((2 - 3 / 2) / Real.sqrt (5 / 4)), some ((3 - 3 / 2) / Real.sqrt (5 / 4))] := by
  rw [zscore.eq_def, std_c4vals]
  simp only []
  rw [if_neg (ne_of_gt (Real.sqrt_pos.mpr (by norm_num : (0:ℝ) < 5 / 4))), mean_c4vals]
  rfl

/-- Mean of the winsorized counterexample column. -/
theorem mean_c4wins :
    meanOpt [some (3 / 100), some 1, some 2, some (297 / 100)] = some (3 / 2) := by
  norm_num [meanOpt, List.filterMap_cons]

/-- Population variance of the winsorized counterexample column: strictly
smaller than the raw variance, which is what the winsorize step changes. -/
theorem var_c4wins :
    varPopOpt [some (3 / 100), some 1, some 2, some (297 / 100)] = some (24109 / 20000) := by
  rw [varPopOpt.eq_def, mean_c4wins]
  norm_num [List.filterMap_cons]

/-- Population standard deviation of the winsorized counterexample column. -/
theorem std_c4wins :
    stdPopOpt [some (3 / 100), some 1, some 2, some (297 / 100)] =
      some (Real.sqrt (24109 / 20000)) := by
  rw [stdPopOpt, var_c4wins]
  rfl

/-- The z-scores of the winsorized counterexample column. -/
theorem zscore_c4wins :
    zscore [some (3 / 100), some 1, some 2, some (297 / 100)] =
      [some ((3 / 100 - 3 / 2) / Real.sqrt (24109 / 20000)),
        some ((1 - 3 / 2) / Real.sqrt (24109 / 20000)),
        some ((2 - 3 / 2) / Real.sqrt (24109 / 20000)),
        some ((297 / 100 - 3 / 2) / Real.sqrt (24109 / 20000))] := by
  rw [zscore.eq_def, std_c4wins]
  simp only []
  rw [if_neg (ne_of_gt (Real.sqrt_pos.mpr (by norm_num : (0:ℝ) < 24109 / 20000))), mean_c4wins]
  rfl

/-- Entry 1 of the source's industry standardization on the counterexample. -/
theorem c4_code_entry :
    (industry_zscores c4vals c4inds)[1]? = some (some ((1 - 3 / 2) / Real.sqrt (5 / 4))) := by
  have hi : (1 : ℕ) < c4vals.length := by norm_num [c4vals]
  simp only [industry_zscores, List.getElem?_map, List.getElem?_range hi, Option.map_some']
  rw [show c4vals.length = 4 from rfl, show List.range 4 = [0, 1, 2, 3] from rfl]
  rw [show c4inds.getD 1 "" = "Tech" from rfl]
  rw [show ([0, 1, 2, 3].filter fun j => decide (c4inds.getD j "" = "Tech")) = [0, 1, 2, 3]
    from by decide]
  rw [show ([0, 1, 2, 3].map fun j => c4vals.getD j none) = c4vals from rfl]
  rw [fillna_c4vals, zscore_c4vals]
  rfl

/-- Entry 1 of the spec-worded (winsorize-inside-group) standardization on the
counterexample. -/
theorem c4_spec_entry :
    (industryZscoresSpecWinsor c4vals c4inds)[1]? =
      some (some ((1 - 3 / 2) / Real.sqrt (24109 / 20000))) := by
  have hi : (1 : ℕ) < c4vals.length := by norm_num [c4vals]
  simp only [industryZscoresSpecWinsor, List.getElem?_map, List.getElem?_range hi,
    Option.map_some']
  rw [show c4vals.length = 4 from rfl, show List.range 4 = [0, 1, 2, 3] from rfl]
  rw [show c4inds.getD 1 "" = "Tech" from rfl]
  rw [show ([0, 1, 2, 3].filter fun j => decide (c4inds.getD j "" = "Tech")) = [0, 1, 2, 3]
    from by decide]
  rw [show ([0, 1, 2, 3].map fun j => c4vals.getD j none) = c4vals from rfl]
  rw [fillna_c4vals, winsorize_c4vals, zscore_c4wins]
  rfl

/-- Counterexample to claim C4 as stated: on the one-group column 0, 1, 2, 3
the source's industry standardization (impute then z-score) and the claim's
described impute-winsorize-z-score pipeline disagree at entry 1, because the
winsorize step changes the group variance from 5/4 to 24109/20000. -/
theorem industry_winsorize_refuted :
    (industry_zscores c4vals c4inds)[1]? ≠ (industryZscoresSpecWinsor c4vals c4inds)[1]? := by
  rw [c4_code_entry, c4_spec_entry]
  intro h
  have h2 : ((1 : ℝ) - 3 / 2) / Real.sqrt (5 / 4) =
      ((1 : ℝ) - 3 / 2) / Real.sqrt (24109 / 20000) :=
    Option.some.inj (Option.some.inj h)
  have hs1 : (0 : ℝ) < Real.sqrt (5 / 4) := Real.sqrt_pos.mpr (by norm_num)
  have hs2 : (0 : ℝ) < Real.sqrt (24109 / 20000) := Real.sqrt_pos.mpr (by norm_num)
  have hnum : ((1 : ℝ) - 3 / 2) ≠ 0 := by norm_num
  rw [div_eq_div_iff (ne_of_gt hs1) (ne_of_gt hs2)] at h2
  have h3 : Real.sqrt (24109 / 20000) = Real.sqrt (5 / 4) := mul_left_cancel₀ hnum h2
  have h4 : (24109 / 20000 : ℝ) = 5 / 4 := (Real.sqrt_inj (by norm_num) (by norm_num)).mp h3
  norm_num at h4
